import Mathlib

/-!
Verification development for the request-construction and client-configuration
subsystem of the never_primp HTTP client (src/lib.rs, src/utils.rs).

The Rust code is shallowly embedded:
the IndexMap of header names to values becomes a list of string pairs with
insert-or-overwrite-in-place semantics; the wreq cookie jar becomes an
insertion-ordered keyed store; external serializers (serde_json,
serde_urlencoded, mime) are abstracted as function parameters since they live
outside this repository.
-/

namespace NeverPrimp

/-- A header or cookie entry: name paired with value. -/
abbrev KV := String × String

/-- Membership test of IndexMap.contains_key: exact string key comparison. -/
def imContains (m : List KV) (k : String) : Bool :=
  m.any (fun p => p.1 == k)

/-- IndexMap.insert: if the key exists, its value is updated in place keeping
its position; otherwise the pair is appended at the end. -/
def imInsert (m : List KV) (k v : String) : List KV :=
  if imContains m k then
    m.map (fun p => if p.1 == k then (p.1, v) else p)
  else m ++ [(k, v)]

/-- IndexMap.get: value of the exactly matching key, if any. -/
def imGet (m : List KV) (k : String) : Option String :=
  (m.find? (fun p => p.1 == k)).map Prod.snd

/-- Cookie pairs joined as in the Rust source: format k=v joined by a
semicolon and space. -/
def joinCookies (cs : List KV) : String :=
  String.intercalate "; " (cs.map (fun p => p.1 ++ "=" ++ p.2))

/-- One split-style cookie header entry for a single pair. -/
def mkCookieHeader (p : KV) : KV :=
  ("cookie", p.1 ++ "=" ++ p.2)

/-- Host lookup of RClient.request step 1: the three exact spellings tried in
order. -/
def hostValue (ordered : List KV) : Option String :=
  ((imGet ordered "Host").orElse fun _ =>
    (imGet ordered "host")).orElse fun _ => imGet ordered "HOST"

/-- The leading Host entry the reorder step produces, if any. -/
def hostPart (ordered : List KV) : List KV :=
  match hostValue ordered with
  | some h => [("Host", h)]
  | none => []

/-- The Content-Length entry the reorder step produces: the exact decimal
length of a known body, the placeholder value for a multipart body, nothing
otherwise. -/
def contentLengthPart (bodyBytes : Option (List Nat)) (hasFiles : Bool) : List KV :=
  match bodyBytes with
  | some b => [("Content-Length", toString b.length)]
  | none => if hasFiles then [("Content-Length", "0")] else []

/-- Lowercasing of str.to_lowercase as used on ASCII header names, defined by
structural recursion over the characters so that concrete instances reduce. -/
def lowerStr (s : String) : String :=
  String.mk (s.data.map Char.toLower)

/-- Case-insensitive test whether the caller already supplied a content-type
header (RClient.request step 3). -/
def hasUserContentType (ordered : List KV) : Bool :=
  ordered.any (fun p => lowerStr p.1 == "content-type")

/-- The Content-Type entry the reorder step produces: only when a content-type
was inferred by the body encoder and the caller supplied none. -/
def contentTypePart (ordered : List KV) (inferredCT : Option String) : List KV :=
  match inferredCT with
  | some ct => if hasUserContentType ordered then [] else [("Content-Type", ct)]
  | none => []

/-- Steps 1 to 3 of the header reorder in RClient.request: Host first, then
Content-Length, then an inferred Content-Type, each inserted into a fresh map. -/
def step123 (ordered : List KV) (bodyBytes : Option (List Nat)) (hasFiles : Bool)
    (inferredCT : Option String) : List KV :=
  let re0 : List KV := []
  let re1 := match hostValue ordered with
    | some h => imInsert re0 "Host" h
    | none => re0
  let re2 := match bodyBytes with
    | some b => imInsert re1 "Content-Length" (toString b.length)
    | none => if hasFiles then imInsert re1 "Content-Length" "0" else re1
  match inferredCT with
  | some ct => if hasUserContentType ordered then re2 else imInsert re2 "Content-Type" ct
  | none => re2

/-- State of the bulk-copy loop (step 4): headers copied so far, the deferred
priority header and the deferred explicit cookie header. -/
structure Step4State where
  re : List KV
  pri : Option KV
  cfh : Option KV

/-- One iteration of the bulk-copy loop: skip Host, Content-Length and keys
already placed; defer priority and cookie; copy everything else in order. -/
def step4Step (s : Step4State) (kv : KV) : Step4State :=
  if lowerStr kv.1 == "host" || lowerStr kv.1 == "content-length" || imContains s.re kv.1 then s
  else if lowerStr kv.1 == "priority" then { s with pri := some kv }
  else if lowerStr kv.1 == "cookie" then { s with cfh := some kv }
  else { s with re := imInsert s.re kv.1 kv.2 }

/-- The bulk-copy loop over the caller-supplied ordered map. -/
def step4 (ordered : List KV) (re0 : List KV) : Step4State :=
  ordered.foldl step4Step { re := re0, pri := none, cfh := none }

/-- Splitting of an explicit cookie header value on semicolons with trimming,
dropping empty parts, as done in the split-cookies branch. -/
def splitCookieValue (v : String) : List String :=
  ((v.splitOn ";").map String.trim).filter (fun s => s ≠ "")

/-- Result of the ordered-header path: the reordered map handed to
RequestBuilder.headers, the name sequence handed to orig_headers, and the
entries later added through header_append. -/
structure OrderedOut where
  reordered : List KV
  origOrder : List String
  appended : List KV
deriving DecidableEq

/-- Full ordered-header path of RClient.request (steps 1 to 6): reorder the
map, then place cookies according to the split_cookies style and the priority
header last. -/
def reorderOrdered (ordered : List KV) (bodyBytes : Option (List Nat)) (hasFiles : Bool)
    (inferredCT : Option String) (cookies : Option (List KV)) (split : Bool) : OrderedOut :=
  let s := step4 ordered (step123 ordered bodyBytes hasFiles inferredCT)
  let orig0 := s.re.map Prod.fst
  if split then
    let cookieNames : List String :=
      match cookies with
      | some cs => cs.map (fun _ => "cookie")
      | none =>
        match s.cfh with
        | some kv => (splitCookieValue kv.2).map (fun _ => "cookie")
        | none => []
    let priNames : List String := match s.pri with | some kv => [kv.1] | none => []
    let appendedCookies : List KV :=
      match cookies with
      | some cs => if cs.isEmpty then [] else cs.map mkCookieHeader
      | none =>
        match s.cfh with
        | some kv => (splitCookieValue kv.2).map (fun part => ("cookie", part))
        | none => []
    let priPairs : List KV := match s.pri with | some kv => [kv] | none => []
    { reordered := s.re
      origOrder := orig0 ++ cookieNames ++ priNames
      appended := appendedCookies ++ priPairs }
  else
    let step5 : List KV × List String :=
      match cookies with
      | some cs =>
        if cs.isEmpty then (s.re, orig0)
        else (imInsert s.re "cookie" (joinCookies cs), orig0 ++ ["cookie"])
      | none =>
        match s.cfh with
        | some kv => (imInsert s.re kv.1 kv.2, orig0 ++ [kv.1])
        | none => (s.re, orig0)
    let step6 : List KV × List String :=
      match s.pri with
      | some kv => (imInsert step5.1 kv.1 kv.2, step5.2 ++ [kv.1])
      | none => step5
    { reordered := step6.1, origOrder := step6.2, appended := [] }

/-- Insertion into an http HeaderMap: names compare case-insensitively and
insert replaces every entry of that name. Position of the survivor is not
observable; the model keeps it at the end. -/
def hmInsertCI (m : List KV) (k v : String) : List KV :=
  (m.filter (fun p => !(lowerStr p.1 == lowerStr k))) ++ [(k, v)]

/-- Modelled from the spec: the to_headermap conversion lives in traits.rs,
which is absent from src. Keys are case-preserved but compared
case-insensitively, later entries replacing earlier ones of the same name. -/
def toHeaderMap (m : List KV) : List KV :=
  m.foldl (fun acc p => hmInsertCI acc p.1 p.2) []

/-- Result of the unordered-header fallback path: the header map applied to
the request and the entries added through header_append. -/
structure UnorderedOut where
  base : List KV
  appended : List KV
deriving DecidableEq

/-- Unordered-header fallback of RClient.request: apply the map as given, then
attach the effective cookies per style, but only inside the branch in which an
unordered map was supplied. -/
def applyUnordered (headers : Option (List KV)) (cookies : Option (List KV))
    (split : Bool) : UnorderedOut :=
  match headers with
  | none => { base := [], appended := [] }
  | some hs =>
    let base := toHeaderMap hs
    match cookies with
    | some cs =>
      if cs.isEmpty then { base := base, appended := [] }
      else if split then { base := base, appended := cs.map mkCookieHeader }
      else { base := hmInsertCI base "Cookie" (joinCookies cs), appended := [] }
    | none => { base := base, appended := [] }

/-- Request-level ordered headers take priority over the client-level ones. -/
def effectiveOrderedHeaders (reqLevel cliLevel : Option (List KV)) : Option (List KV) :=
  match reqLevel with
  | some o => some o
  | none => cliLevel

/-- Explicit per-request cookies win; otherwise the visible jar cookies are
used when non-empty. -/
def effectiveCookies (param : Option (List KV)) (jarVisible : List KV) : Option (List KV) :=
  match param with
  | some cs => some cs
  | none => if jarVisible.isEmpty then none else some jarVisible

/-- Header dispatch of RClient.request: the ordered path when any ordered map
exists, else the unordered fallback. Returns the header sequence applied and
the entries appended afterwards. -/
def requestHeaders (effOrdered headers : Option (List KV)) (bodyBytes : Option (List Nat))
    (hasFiles : Bool) (inferredCT : Option String) (cookies : Option (List KV))
    (split : Bool) : List KV × List KV :=
  match effOrdered with
  | some o =>
    let out := reorderOrdered o bodyBytes hasFiles inferredCT cookies split
    (out.reordered, out.appended)
  | none =>
    let out := applyUnordered headers cookies split
    (out.base, out.appended)

/-! Cookie jar adapter (get_all_cookies, set_cookie, get_cookie, delete_cookie,
update_cookies, clear_cookies). The underlying wreq jar is modelled as an
insertion-ordered store keyed by name, domain and path, whose enumeration does
not filter expired entries; that is exactly the behaviour the tombstone
overlay in the source works around. -/

/-- One record of the underlying jar. -/
structure CookieRec where
  name : String
  value : String
  domain : String
  cpath : String
deriving DecidableEq

/-- Records collide when name, domain and path all agree. -/
def sameKey (a b : CookieRec) : Bool :=
  a.name == b.name && a.domain == b.domain && a.cpath == b.cpath

/-- Jar.add_cookie_str: overwrite the record with the same key in place, or
append a new record. -/
def jarAdd (jar : List CookieRec) (r : CookieRec) : List CookieRec :=
  if jar.any (fun c => sameKey c r) then
    jar.map (fun c => if sameKey c r then r else c)
  else jar ++ [r]

/-- HashSet.insert on the tombstone set of deleted names. -/
def delInsert (l : List String) (n : String) : List String :=
  if l.contains n then l else l ++ [n]

/-- Client cookie state: the underlying jar plus the tombstone set of names
considered deleted. -/
structure JarState where
  jar : List CookieRec
  deleted : List String
deriving DecidableEq

/-- RClient.get_all_cookies: enumerate the jar, skip tombstoned names, insert
name and value into an IndexMap keyed by name alone. -/
def getAllCookies (st : JarState) : List KV :=
  st.jar.foldl
    (fun acc c => if st.deleted.contains c.name then acc else imInsert acc c.name c.value) []

/-- RClient.get_cookie: none when tombstoned, else the value of the first
enumerated record with that name. -/
def getCookie (st : JarState) (name : String) : Option String :=
  if st.deleted.contains name then none
  else (st.jar.find? (fun c => c.name == name)).map CookieRec.value

/-- RClient.set_cookie: write the record at the given scope, defaulting to
domain 0.0.0.0 and path slash, and clear the tombstone for that name. -/
def setCookie (st : JarState) (name value : String)
    (domain cpath : Option String) : JarState :=
  { jar := jarAdd st.jar ⟨name, value, domain.getD "0.0.0.0", cpath.getD "/"⟩
    deleted := st.deleted.filter (fun n => n ≠ name) }

/-- RClient.delete_cookie: write an expired empty record at the default scope
and add the name to the tombstone set. -/
def deleteCookie (st : JarState) (name : String) : JarState :=
  { jar := jarAdd st.jar ⟨name, "", "0.0.0.0", "/"⟩
    deleted := delInsert st.deleted name }

/-! Body encoder of RClient.request for POST, PUT and PATCH. External
serializers are abstracted: parse stands for serde_json from_str, ser for
serde_json to_vec, urlenc for serde_urlencoded to_string (none meaning the
serializer fails), jshow for the serde_json display of a value, and parseMime
for the mime parser (none meaning the string does not parse). -/

/-- A JSON-shaped value as produced by depythonize into serde_json. -/
inductive JVal where
  | null
  | boolean (b : Bool)
  | num (n : Int)
  | str (s : String)
  | arr (items : List JVal)
  | obj (fields : List (String × JVal))

/-- Test of Value.is_object or Value.is_array. -/
def isObjOrArr : JVal → Bool
  | JVal.obj _ => true
  | JVal.arr _ => true
  | _ => false

/-- The nested check of the data branch: an object one of whose field values
is itself an object or array. -/
def isNested : JVal → Bool
  | JVal.obj fields => fields.any (fun p => isObjOrArr p.2)
  | _ => false

/-- UTF-8 bytes of a string, as str.as_bytes produces. -/
def strBytes (s : String) : List Nat :=
  s.toUTF8.toList.map (fun b => b.toNat)

/-- Body pre-computation of RClient.request (the big conditional before the
headers are set): returns the optional body bytes and the inferred
content-type, or none when a serializer fails and the request errors. -/
def encodeBody (isPPP hasFiles : Bool) (content : Option (List Nat))
    (dataValue jsonValue : Option JVal) (parse : String → Option JVal)
    (ser : JVal → List Nat) (urlenc : JVal → Option String) :
    Option (Option (List Nat) × Option String) :=
  if isPPP then
    if hasFiles then some (none, none)
    else
      match content with
      | some c => some (some c, none)
      | none =>
        match dataValue with
        | some fd =>
          match fd with
          | JVal.str s =>
            match parse s with
            | some j => some (some (ser j), some "application/json")
            | none => some (some (strBytes s), none)
          | _ =>
            if isNested fd then some (some (ser fd), some "application/json")
            else
              match urlenc fd with
              | some e => some (some (strBytes e), some "application/x-www-form-urlencoded")
              | none => none
        | none =>
          match jsonValue with
          | some j => some (some (ser j), some "application/json")
          | none => some (none, none)
  else some (none, none)

/-- One processed file input, as collected from the Python files argument. -/
inductive FileData where
  | fpath (fieldName filePath : String)
  | fbytes (fieldName filename : String) (content : List Nat)
  | fbytesWithMime (fieldName filename : String) (content : List Nat) (mime : String)
deriving DecidableEq

/-- One part of the multipart form. -/
inductive Part where
  | text (name value : String)
  | fileStream (field filename fpath : String)
  | fileBytes (field filename : String) (content : List Nat) (mime : Option String)
deriving DecidableEq

/-- Multipart text-field value: a string field verbatim, any other value via
its serde_json display. -/
def jvalFieldString (jshow : JVal → String) (v : JVal) : String :=
  match v with
  | JVal.str s => s
  | v => jshow v

/-- Text fields of the multipart form: only an object-shaped data value
contributes, one text field per object entry. -/
def formTextFields (dataValue : Option JVal) (jshow : JVal → String) : List Part :=
  match dataValue with
  | some (JVal.obj fields) => fields.map (fun p => Part.text p.1 (jvalFieldString jshow p.2))
  | _ => []

/-- Base name of a file path as Path.file_name with the field name as
fallback. Dot-segment normalization of the Rust API is not modelled; no claim
depends on it. -/
def basename (p dflt : String) : String :=
  match (p.splitOn "/").getLast? with
  | some s => if s = "" then dflt else if s = ".." then dflt else s
  | none => dflt

/-- One file part: streamed from a path with the base name as filename, or
attached bytes with the given filename and an optional parsed mime type. -/
def filePart (pm : String → Option String) (fd : FileData) : Part :=
  match fd with
  | FileData.fpath field p => Part.fileStream field (basename p field) p
  | FileData.fbytes field fname content => Part.fileBytes field fname content none
  | FileData.fbytesWithMime field fname content m => Part.fileBytes field fname content (pm m)

/-- The multipart form built in the has_files branch: text fields from an
object-shaped data value followed by one part per file entry. -/
def multipartForm (dataValue : Option JVal) (files : List FileData)
    (jshow : JVal → String) (pm : String → Option String) : List Part :=
  formTextFields dataValue jshow ++ files.map (filePart pm)

/-- The request body finally attached. -/
inductive ReqBody where
  | empty
  | bytes (b : List Nat)
  | multipart (parts : List Part)
deriving DecidableEq

/-- Body attachment of RClient.request: only POST, PUT and PATCH carry a body;
the multipart form when files are present, else the pre-serialized bytes. -/
def chooseBody (isPPP hasFiles : Bool) (form : List Part)
    (bodyBytes : Option (List Nat)) : ReqBody :=
  if isPPP then
    if hasFiles then ReqBody.multipart form
    else
      match bodyBytes with
      | some b => ReqBody.bytes b
      | none => ReqBody.empty
  else ReqBody.empty

/-- End-to-end body construction: encode, then attach; none when a serializer
fails and the request errors. -/
def requestBody (isPPP : Bool) (content : Option (List Nat)) (dataValue jsonValue : Option JVal)
    (files : List FileData) (parse : String → Option JVal) (ser : JVal → List Nat)
    (urlenc : JVal → Option String) (jshow : JVal → String)
    (pm : String → Option String) : Option ReqBody :=
  let hasFiles := !files.isEmpty
  match encodeBody isPPP hasFiles content dataValue jsonValue parse ser urlenc with
  | none => none
  | some be => some (chooseBody isPPP hasFiles (multipartForm dataValue files jshow pm) be.1)

/-! Client configuration and rebuild (RClient.rebuild_client and the setters
that trigger it). Validation of impersonation names, OS names and proxy URLs
is performed by the external wreq and wreq_util crates and is abstracted as
boolean predicates; the built handle is identified with the configuration
snapshot it was compiled from. -/

/-- The configuration fields whose setters trigger a rebuild. -/
structure CConfig where
  impersonate : Option String
  impersonateOs : Option String
  proxy : Option String
  headers : Option (List KV)
  orderedHeaders : Option (List KV)
deriving DecidableEq

/-- Abstract validators of the external engine: emulation-name parsing,
emulation-OS parsing, proxy-URL parsing, and the final builder build step. -/
structure Validators where
  emuOk : String → Bool
  emuOsOk : String → Bool
  proxyOk : String → Bool
  buildOk : CConfig → Bool

/-- RClient.rebuild_client: parse the impersonation target (and, only then,
the OS), resolve the proxy with the environment fallback, and build; any
failure aborts with none before the handle is replaced. -/
def rebuildClient (v : Validators) (envProxy : Option String) (cfg : CConfig) :
    Option CConfig :=
  let impOk := match cfg.impersonate with
    | some s => v.emuOk s && (match cfg.impersonateOs with
      | some o => v.emuOsOk o
      | none => true)
    | none => true
  let effProxy := match cfg.proxy with
    | some p => some p
    | none => envProxy
  let proxyOkB := match effProxy with
    | some p => v.proxyOk p
    | none => true
  if impOk && proxyOkB && v.buildOk cfg then some cfg else none

/-- Mutable client state: the currently built handle and the configuration
store. -/
structure RState where
  client : CConfig
  cfg : CConfig
deriving DecidableEq

/-- A setter body: mutate the configuration, then rebuild; the handle is
replaced only when the rebuild returns a new one. -/
def applyMutation (v : Validators) (envProxy : Option String) (st : RState)
    (cfg' : CConfig) : RState :=
  match rebuildClient v envProxy cfg' with
  | some h => { client := h, cfg := cfg' }
  | none => { client := st.client, cfg := cfg' }

/-- RClient.set_proxy. -/
def setProxy (v : Validators) (envProxy : Option String) (st : RState) (p : String) : RState :=
  applyMutation v envProxy st { st.cfg with proxy := some p }

/-- RClient.set_headers. -/
def setHeaders (v : Validators) (envProxy : Option String) (st : RState)
    (hs : Option (List KV)) : RState :=
  applyMutation v envProxy st { st.cfg with headers := hs }

/-- RClient.set_ordered_headers. -/
def setOrderedHeaders (v : Validators) (envProxy : Option String) (st : RState)
    (hs : Option (List KV)) : RState :=
  applyMutation v envProxy st { st.cfg with orderedHeaders := hs }

/-- RClient.set_impersonate. -/
def setImpersonate (v : Validators) (envProxy : Option String) (st : RState)
    (s : String) : RState :=
  applyMutation v envProxy st { st.cfg with impersonate := some s }

/-- RClient.set_impersonate_os. -/
def setImpersonateOs (v : Validators) (envProxy : Option String) (st : RState)
    (s : String) : RState :=
  applyMutation v envProxy st { st.cfg with impersonateOs := some s }

/-- A validator set in which every impersonation name is rejected, as when an
unrecognized name reaches Emulation::from_str. -/
def vRejectEmu : Validators :=
  ⟨fun _ => false, fun _ => true, fun _ => true, fun _ => true⟩

/-- A validator set in which every setting parses and the build succeeds. -/
def vAccept : Validators :=
  ⟨fun _ => true, fun _ => true, fun _ => true, fun _ => true⟩

/-- A sample configuration with an impersonation target set. -/
def cfgSample : CConfig :=
  ⟨some "chrome_123", none, none, none, none⟩

/-- A sample client state built from the sample configuration. -/
def stSample : RState :=
  ⟨cfgSample, cfgSample⟩

/-! Lemmas about the IndexMap model and the header reordering engine. -/

theorem imContains_eq_false_of_forall {m : List KV} {k : String}
    (h : ∀ p ∈ m, p.1 ≠ k) : imContains m k = false := by
  unfold imContains
  rw [List.any_eq_false]
  intro p hp
  simpa using h p hp

theorem imInsert_append {m : List KV} {k : String} (v : String)
    (h : imContains m k = false) : imInsert m k v = m ++ [(k, v)] := by
  unfold imInsert
  rw [h]
  simp

theorem ne_of_toLower_ne {a b : String} (h : lowerStr a ≠ lowerStr b) : a ≠ b :=
  fun he => h (he ▸ rfl)

theorem step123_eq (ordered : List KV) (bb : Option (List Nat)) (hf : Bool)
    (ct : Option String) :
    step123 ordered bb hf ct =
      hostPart ordered ++ contentLengthPart bb hf ++ contentTypePart ordered ct := by
  unfold step123 hostPart contentLengthPart contentTypePart
  cases hostValue ordered <;> cases bb <;> cases ct <;> cases hf <;>
    cases hU : hasUserContentType ordered <;>
    simp [imInsert, imContains, hU]

theorem step4_go (l : List KV) (s : Step4State) :
    ∃ rest, (l.foldl step4Step s).re = s.re ++ rest ∧
      ∀ p ∈ rest, lowerStr p.1 ≠ "host" ∧ lowerStr p.1 ≠ "content-length" ∧
        lowerStr p.1 ≠ "priority" ∧ lowerStr p.1 ≠ "cookie" := by
  induction l generalizing s with
  | nil => exact ⟨[], by simp, by simp⟩
  | cons kv t ih =>
    rw [List.foldl_cons]
    cases h1 : (lowerStr kv.1 == "host" || lowerStr kv.1 == "content-length" ||
        imContains s.re kv.1) with
    | true =>
      have hstep : step4Step s kv = s := by simp [step4Step, h1]
      rw [hstep]
      exact ih s
    | false =>
      have h1' := h1
      simp only [Bool.or_eq_false_iff, beq_eq_false_iff_ne] at h1'
      obtain ⟨⟨hh, hcl⟩, hcon⟩ := h1'
      cases h2 : (lowerStr kv.1 == "priority") with
      | true =>
        have hstep : step4Step s kv = { s with pri := some kv } := by
          simp [step4Step, h1, h2]
        rw [hstep]
        exact ih _
      | false =>
        have hpri : lowerStr kv.1 ≠ "priority" := by simpa using h2
        cases h3 : (lowerStr kv.1 == "cookie") with
        | true =>
          have hstep : step4Step s kv = { s with cfh := some kv } := by
            simp [step4Step, h1, h2, h3]
          rw [hstep]
          exact ih _
        | false =>
          have hck : lowerStr kv.1 ≠ "cookie" := by simpa using h3
          have hstep : step4Step s kv = { s with re := s.re ++ [kv] } := by
            simp [step4Step, h1, h2, h3, imInsert, hcon, hh, hcl]
          rw [hstep]
          obtain ⟨rest, hre, hprops⟩ := ih { s with re := s.re ++ [kv] }
          refine ⟨kv :: rest, ?_, ?_⟩
          · rw [hre]
            simp
          · intro p hp
            rcases List.mem_cons.mp hp with hp | hp
            · subst hp; exact ⟨hh, hcl, hpri, hck⟩
            · exact hprops p hp

theorem step4_pri_lower (l : List KV) (s : Step4State)
    (h : ∀ kv, s.pri = some kv → lowerStr kv.1 = "priority") :
    ∀ kv, (l.foldl step4Step s).pri = some kv → lowerStr kv.1 = "priority" := by
  induction l generalizing s with
  | nil => exact h
  | cons kv t ih =>
    rw [List.foldl_cons]
    unfold step4Step
    split
    · exact ih s h
    · split
      · next h2 =>
        refine ih _ ?_
        intro kv' hkv'
        simp only [Option.some.injEq] at hkv'
        subst hkv'
        simpa using h2
      · split
        · exact ih _ (by simpa using h)
        · exact ih _ (by simpa using h)

theorem step4_cfh_lower (l : List KV) (s : Step4State)
    (h : ∀ kv, s.cfh = some kv → lowerStr kv.1 = "cookie") :
    ∀ kv, (l.foldl step4Step s).cfh = some kv → lowerStr kv.1 = "cookie" := by
  induction l generalizing s with
  | nil => exact h
  | cons kv t ih =>
    rw [List.foldl_cons]
    unfold step4Step
    split
    · exact ih s h
    · split
      · exact ih _ (by simpa using h)
      · split
        · next h3 =>
          refine ih _ ?_
          intro kv' hkv'
          simp only [Option.some.injEq] at hkv'
          subst hkv'
          simpa using h3
        · exact ih _ (by simpa using h)

theorem imInsert_append_lower {m : List KV} {k : String} (v : String)
    (h : ∀ p ∈ m, lowerStr p.1 ≠ lowerStr k) : imInsert m k v = m ++ [(k, v)] :=
  imInsert_append v (imContains_eq_false_of_forall fun p hp => ne_of_toLower_ne (h p hp))

theorem lower_Host : lowerStr "Host" = "host" := by decide

theorem lower_CL : lowerStr "Content-Length" = "content-length" := by decide

theorem lower_CT : lowerStr "Content-Type" = "content-type" := by decide

theorem lower_cookie : lowerStr "cookie" = "cookie" := by decide

theorem step123_lower (ordered : List KV) (bb : Option (List Nat)) (hf : Bool)
    (ct : Option String) :
    ∀ p ∈ step123 ordered bb hf ct,
      lowerStr p.1 = "host" ∨ lowerStr p.1 = "content-length" ∨
        lowerStr p.1 = "content-type" := by
  rw [step123_eq]
  intro p hp
  rcases List.mem_append.mp hp with hp | hp
  · rcases List.mem_append.mp hp with hp | hp
    · left
      unfold hostPart at hp
      rcases hv : hostValue ordered with _ | h
      · rw [hv] at hp; cases hp
      · rw [hv] at hp
        rcases List.mem_singleton.mp hp with rfl
        exact lower_Host
    · right; left
      unfold contentLengthPart at hp
      rcases bb with _ | b
      · cases hf
        · cases hp
        · rcases List.mem_singleton.mp hp with rfl
          exact lower_CL
      · rcases List.mem_singleton.mp hp with rfl
        exact lower_CL
  · right; right
    unfold contentTypePart at hp
    rcases ct with _ | c
    · cases hp
    · rcases hU : hasUserContentType ordered
      · rw [hU] at hp
        simp only [Bool.false_eq_true, if_false] at hp
        rcases List.mem_singleton.mp hp with rfl
        exact lower_CT
      · rw [hU] at hp
        simp at hp

theorem sRe_decomp (ordered : List KV) (bb : Option (List Nat)) (hf : Bool)
    (ct : Option String) :
    ∃ rest, (step4 ordered (step123 ordered bb hf ct)).re =
        step123 ordered bb hf ct ++ rest ∧
      ∀ p ∈ rest, lowerStr p.1 ≠ "host" ∧ lowerStr p.1 ≠ "content-length" ∧
        lowerStr p.1 ≠ "priority" ∧ lowerStr p.1 ≠ "cookie" :=
  step4_go ordered { re := step123 ordered bb hf ct, pri := none, cfh := none }

theorem sRe_not_cookie_priority (ordered : List KV) (bb : Option (List Nat)) (hf : Bool)
    (ct : Option String) :
    ∀ p ∈ (step4 ordered (step123 ordered bb hf ct)).re,
      lowerStr p.1 ≠ "cookie" ∧ lowerStr p.1 ≠ "priority" := by
  obtain ⟨rest, hre, hprops⟩ := sRe_decomp ordered bb hf ct
  rw [hre]
  intro p hp
  rcases List.mem_append.mp hp with hp | hp
  · rcases step123_lower ordered bb hf ct p hp with h | h | h <;> rw [h] <;>
      exact ⟨by decide, by decide⟩
  · exact ⟨(hprops p hp).2.2.2, (hprops p hp).2.2.1⟩

theorem step4_pri_of (ordered re0 : List KV) :
    ∀ kv, (step4 ordered re0).pri = some kv → lowerStr kv.1 = "priority" :=
  step4_pri_lower ordered { re := re0, pri := none, cfh := none }
    (fun _ h => Option.noConfusion h)

theorem step4_cfh_of (ordered re0 : List KV) :
    ∀ kv, (step4 ordered re0).cfh = some kv → lowerStr kv.1 = "cookie" :=
  step4_cfh_lower ordered { re := re0, pri := none, cfh := none }
    (fun _ h => Option.noConfusion h)

theorem reorder_prefix (ordered : List KV) (bb : Option (List Nat)) (hf : Bool)
    (ct : Option String) (cookies : Option (List KV)) (split : Bool) :
    ∃ tail, (reorderOrdered ordered bb hf ct cookies split).reordered =
      step123 ordered bb hf ct ++ tail := by
  obtain ⟨rest4, hre, hprops⟩ := sRe_decomp ordered bb hf ct
  have hnot := sRe_not_cookie_priority ordered bb hf ct
  have hinsPriOn : ∀ (extra : List KV) (pkv : KV), lowerStr pkv.1 = "priority" →
      (∀ q ∈ extra, lowerStr q.1 = "cookie") →
      imInsert ((step4 ordered (step123 ordered bb hf ct)).re ++ extra) pkv.1 pkv.2 =
        (step4 ordered (step123 ordered bb hf ct)).re ++ extra ++ [pkv] := by
    intro extra pkv hp hextra
    apply imInsert_append_lower
    intro q hq
    rw [hp]
    rcases List.mem_append.mp hq with hq | hq
    · exact (hnot q hq).2
    · rw [hextra q hq]; decide
  cases split with
  | true =>
    exact ⟨rest4, hre⟩
  | false =>
    rcases cookies with _ | cs
    · rcases hcfh : (step4 ordered (step123 ordered bb hf ct)).cfh with _ | ckv
      · rcases hpri : (step4 ordered (step123 ordered bb hf ct)).pri with _ | pkv
        · exact ⟨rest4, by simp [reorderOrdered, hcfh, hpri, hre]⟩
        · have hplow := step4_pri_of ordered (step123 ordered bb hf ct) pkv hpri
          have hins := hinsPriOn [] pkv hplow (by simp)
          refine ⟨rest4 ++ [pkv], ?_⟩
          simp only [List.append_nil] at hins
          rw [hre] at hins
          simp [reorderOrdered, hcfh, hpri, hins, hre, List.append_assoc]
      · have hclow := step4_cfh_of ordered (step123 ordered bb hf ct) ckv hcfh
        have hinsC : imInsert (step4 ordered (step123 ordered bb hf ct)).re ckv.1 ckv.2 =
            (step4 ordered (step123 ordered bb hf ct)).re ++ [ckv] := by
          apply imInsert_append_lower
          intro q hq
          rw [hclow]
          exact (hnot q hq).1
        rcases hpri : (step4 ordered (step123 ordered bb hf ct)).pri with _ | pkv
        · refine ⟨rest4 ++ [ckv], ?_⟩
          rw [hre] at hinsC
          simp [reorderOrdered, hcfh, hpri, hinsC, hre, List.append_assoc]
        · have hplow := step4_pri_of ordered (step123 ordered bb hf ct) pkv hpri
          have hins := hinsPriOn [ckv] pkv hplow (by simpa using hclow)
          refine ⟨rest4 ++ [ckv] ++ [pkv], ?_⟩
          rw [hre] at hinsC hins
          simp only [List.append_assoc] at hinsC hins
          simp [reorderOrdered, hcfh, hpri, hinsC, hins, hre, List.append_assoc]
    · rcases hemp : cs.isEmpty with _ | _
      · have hinsCk : imInsert (step4 ordered (step123 ordered bb hf ct)).re "cookie"
            (joinCookies cs) =
            (step4 ordered (step123 ordered bb hf ct)).re ++ [("cookie", joinCookies cs)] := by
          apply imInsert_append_lower
          intro q hq
          rw [lower_cookie]
          exact (hnot q hq).1
        rcases hpri : (step4 ordered (step123 ordered bb hf ct)).pri with _ | pkv
        · refine ⟨rest4 ++ [("cookie", joinCookies cs)], ?_⟩
          rw [hre] at hinsCk
          simp [reorderOrdered, hemp, hpri, hinsCk, hre, List.append_assoc]
        · have hplow := step4_pri_of ordered (step123 ordered bb hf ct) pkv hpri
          have hins := hinsPriOn [("cookie", joinCookies cs)] pkv hplow (by simp [lower_cookie])
          refine ⟨rest4 ++ [("cookie", joinCookies cs)] ++ [pkv], ?_⟩
          rw [hre] at hinsCk hins
          simp only [List.append_assoc] at hinsCk hins
          simp [reorderOrdered, hemp, hpri, hinsCk, hins, hre, List.append_assoc]
      · rcases hpri : (step4 ordered (step123 ordered bb hf ct)).pri with _ | pkv
        · exact ⟨rest4, by simp [reorderOrdered, hemp, hpri, hre]⟩
        · have hplow := step4_pri_of ordered (step123 ordered bb hf ct) pkv hpri
          have hins := hinsPriOn [] pkv hplow (by simp)
          refine ⟨rest4 ++ [pkv], ?_⟩
          simp only [List.append_nil] at hins
          rw [hre] at hins
          simp [reorderOrdered, hemp, hpri, hins, hre, List.append_assoc]

/-- C1: for every request built from an ordered header map, the output header
sequence starts with Host (when the map holds one of the spellings Host, host
or HOST), then Content-Length with the exact decimal body length when the
encoded body length is known (or the placeholder when a multipart body is
pending), then the encoder-inferred Content-Type when the caller supplied no
content-type key case-insensitively; all remaining headers follow. -/
theorem c1_host_cl_ct_lead (ordered : List KV) (bodyBytes : Option (List Nat))
    (hasFiles : Bool) (inferredCT : Option String) (cookies : Option (List KV))
    (split : Bool) :
    ∃ tail, (reorderOrdered ordered bodyBytes hasFiles inferredCT cookies split).reordered =
      hostPart ordered ++ contentLengthPart bodyBytes hasFiles ++
        contentTypePart ordered inferredCT ++ tail := by
  obtain ⟨tail, htail⟩ := reorder_prefix ordered bodyBytes hasFiles inferredCT cookies split
  rw [step123_eq] at htail
  exact ⟨tail, by simpa [List.append_assoc] using htail⟩

theorem lower_Cookie : lowerStr "Cookie" = "cookie" := by decide

theorem reorder_merged_structure (ordered : List KV) (bb : Option (List Nat)) (hf : Bool)
    (ct : Option String) (cs : List KV) (hemp : cs.isEmpty = false) :
    ∃ front pri,
      (reorderOrdered ordered bb hf ct (some cs) false).reordered
        = front ++ [("cookie", joinCookies cs)] ++ pri ∧
      (∀ p ∈ front, lowerStr p.1 ≠ "cookie") ∧
      (pri = [] ∨ ∃ kv : KV, pri = [kv] ∧ lowerStr kv.1 = "priority") ∧
      (reorderOrdered ordered bb hf ct (some cs) false).appended = [] := by
  have hnot := sRe_not_cookie_priority ordered bb hf ct
  have hinsCk : imInsert (step4 ordered (step123 ordered bb hf ct)).re "cookie"
      (joinCookies cs) =
      (step4 ordered (step123 ordered bb hf ct)).re ++ [("cookie", joinCookies cs)] := by
    apply imInsert_append_lower
    intro q hq
    rw [lower_cookie]
    exact (hnot q hq).1
  rcases hpri : (step4 ordered (step123 ordered bb hf ct)).pri with _ | pkv
  · refine ⟨(step4 ordered (step123 ordered bb hf ct)).re, [], ?_, ?_, Or.inl rfl, ?_⟩
    · simp [reorderOrdered, hemp, hpri, hinsCk]
    · intro p hp; exact (hnot p hp).1
    · simp [reorderOrdered, hemp, hpri]
  · have hplow := step4_pri_of ordered (step123 ordered bb hf ct) pkv hpri
    have hinsP : imInsert ((step4 ordered (step123 ordered bb hf ct)).re ++
        [("cookie", joinCookies cs)]) pkv.1 pkv.2 =
        (step4 ordered (step123 ordered bb hf ct)).re ++
          [("cookie", joinCookies cs)] ++ [pkv] := by
      apply imInsert_append_lower
      intro q hq
      rw [hplow]
      rcases List.mem_append.mp hq with hq | hq
      · exact (hnot q hq).2
      · rcases List.mem_singleton.mp hq with rfl
        rw [lower_cookie]; decide
    refine ⟨(step4 ordered (step123 ordered bb hf ct)).re, [pkv], ?_,
      (fun p hp => (hnot p hp).1), Or.inr ⟨pkv, rfl, hplow⟩, ?_⟩
    · simp [reorderOrdered, hemp, hpri, hinsCk, hinsP, List.append_assoc]
    · simp [reorderOrdered, hemp, hpri]

theorem reorder_split_structure (ordered : List KV) (bb : Option (List Nat)) (hf : Bool)
    (ct : Option String) (cs : List KV) (hemp : cs.isEmpty = false) :
    ∃ pri,
      (reorderOrdered ordered bb hf ct (some cs) true).appended
        = cs.map mkCookieHeader ++ pri ∧
      (pri = [] ∨ ∃ kv : KV, pri = [kv] ∧ lowerStr kv.1 = "priority") ∧
      (reorderOrdered ordered bb hf ct (some cs) true).reordered
        = (step4 ordered (step123 ordered bb hf ct)).re := by
  rcases hpri : (step4 ordered (step123 ordered bb hf ct)).pri with _ | pkv
  · exact ⟨[], by simp [reorderOrdered, hemp, hpri], Or.inl rfl, rfl⟩
  · exact ⟨[pkv], by simp [reorderOrdered, hemp, hpri], Or.inr ⟨pkv, rfl,
      step4_pri_of ordered (step123 ordered bb hf ct) pkv hpri⟩, rfl⟩

theorem filter_cookie_nil {l : List KV} (h : ∀ p ∈ l, lowerStr p.1 ≠ "cookie") :
    l.filter (fun p => lowerStr p.1 == "cookie") = [] := by
  induction l with
  | nil => rfl
  | cons a t ih =>
    have ha : (lowerStr a.1 == "cookie") = false := by simpa using h a (by simp)
    simp [List.filter_cons, ha, ih (fun p hp => h p (by simp [hp]))]

theorem filter_cookie_all {l : List KV} (h : ∀ p ∈ l, lowerStr p.1 = "cookie") :
    l.filter (fun p => lowerStr p.1 == "cookie") = l := by
  induction l with
  | nil => rfl
  | cons a t ih =>
    have ha : (lowerStr a.1 == "cookie") = true := by simpa using h a (by simp)
    simp [List.filter_cons, ha, ih (fun p hp => h p (by simp [hp]))]

theorem filter_cookie_of_pri {l : List KV}
    (h : l = [] ∨ ∃ kv : KV, l = [kv] ∧ lowerStr kv.1 = "priority") :
    l.filter (fun p => lowerStr p.1 == "cookie") = [] := by
  rcases h with rfl | ⟨kv, rfl, hkv⟩
  · rfl
  · simp [List.filter_cons, hkv]

theorem map_cookie_lower (cs : List KV) :
    ∀ p ∈ cs.map mkCookieHeader, lowerStr p.1 = "cookie" := by
  intro p hp
  obtain ⟨q, _, rfl⟩ := List.mem_map.mp hp
  exact lower_cookie

/-- C2: for every non-empty effective cookie set, merged style yields exactly
one cookie header carrying the pairs joined as k1=v1; k2=v2 in iteration
order, and split style yields one appended cookie header entry per pair in the
same order; this holds on the ordered-header path and on the unordered
fallback path. -/
theorem c2_cookie_styles (cs : List KV) (h : cs ≠ []) (ordered hs : List KV)
    (bb : Option (List Nat)) (hf : Bool) (ct : Option String) :
    ((reorderOrdered ordered bb hf ct (some cs) false).reordered.filter
        (fun p => lowerStr p.1 == "cookie") = [("cookie", joinCookies cs)] ∧
      (reorderOrdered ordered bb hf ct (some cs) false).appended = []) ∧
    ((reorderOrdered ordered bb hf ct (some cs) true).appended.filter
        (fun p => lowerStr p.1 == "cookie") = cs.map mkCookieHeader ∧
      (reorderOrdered ordered bb hf ct (some cs) true).reordered.filter
        (fun p => lowerStr p.1 == "cookie") = []) ∧
    ((applyUnordered (some hs) (some cs) false).base.filter
        (fun p => lowerStr p.1 == "cookie") = [("Cookie", joinCookies cs)] ∧
      (applyUnordered (some hs) (some cs) false).appended = []) ∧
    (applyUnordered (some hs) (some cs) true).appended = cs.map mkCookieHeader := by
  have hemp : cs.isEmpty = false := by
    cases cs
    · exact absurd rfl h
    · rfl
  refine ⟨?_, ?_, ?_, ?_⟩
  · obtain ⟨front, pri, heq, hfront, hpri, happ⟩ :=
      reorder_merged_structure ordered bb hf ct cs hemp
    refine ⟨?_, happ⟩
    rw [heq, List.filter_append, List.filter_append, filter_cookie_nil hfront,
      filter_cookie_of_pri hpri]
    simp [lower_cookie]
  · obtain ⟨pri, happ, hpri, hreo⟩ := reorder_split_structure ordered bb hf ct cs hemp
    constructor
    · rw [happ, List.filter_append, filter_cookie_all (map_cookie_lower cs),
        filter_cookie_of_pri hpri]
      simp
    · rw [hreo]
      exact filter_cookie_nil
        (fun p hp => (sRe_not_cookie_priority ordered bb hf ct p hp).1)
  · constructor
    · have hb : (applyUnordered (some hs) (some cs) false).base
          = hmInsertCI (toHeaderMap hs) "Cookie" (joinCookies cs) := by
        simp [applyUnordered, hemp]
      rw [hb]
      unfold hmInsertCI
      rw [List.filter_append]
      have hleft : ((toHeaderMap hs).filter
          (fun p => !(lowerStr p.1 == lowerStr "Cookie"))).filter
          (fun p => lowerStr p.1 == "cookie") = [] := by
        apply filter_cookie_nil
        intro p hp
        have := List.of_mem_filter hp
        rw [lower_Cookie] at this
        simpa using this
      rw [hleft]
      simp [lower_Cookie]
    · simp [applyUnordered, hemp]
  · simp [applyUnordered, hemp]

/-- C2 counterexample: with a non-empty effective cookie set but neither an
ordered nor an unordered header map, the request carries no cookie header at
all in either style, refuting the claim that every such request carries
exactly one merged cookie header (or one entry per pair when split). -/
theorem c2_counterexample :
    requestHeaders none none none false none (some [("b", "2")]) false = ([], []) ∧
    requestHeaders none none none false none (some [("b", "2")]) true = ([], []) ∧
    (([] : List KV) ≠ [("Cookie", joinCookies [("b", "2")])]) ∧
    (([] : List KV) ≠ [("b", "2")].map mkCookieHeader) := by
  exact ⟨rfl, rfl, by decide, by decide⟩

/-- Witness for C2 at a concrete cookie set and header maps. -/
theorem c2_cookie_styles_witness :
    ([("a","1")] : List KV) ≠ [] ∧
    (((reorderOrdered [] none false none (some [("a","1")]) false).reordered.filter
        (fun p => lowerStr p.1 == "cookie") = [("cookie", joinCookies [("a","1")])] ∧
      (reorderOrdered [] none false none (some [("a","1")]) false).appended = []) ∧
    ((reorderOrdered [] none false none (some [("a","1")]) true).appended.filter
        (fun p => lowerStr p.1 == "cookie") = [("a","1")].map mkCookieHeader ∧
      (reorderOrdered [] none false none (some [("a","1")]) true).reordered.filter
        (fun p => lowerStr p.1 == "cookie") = []) ∧
    ((applyUnordered (some []) (some [("a","1")]) false).base.filter
        (fun p => lowerStr p.1 == "cookie") = [("Cookie", joinCookies [("a","1")])] ∧
      (applyUnordered (some []) (some [("a","1")]) false).appended = []) ∧
    (applyUnordered (some []) (some [("a","1")]) true).appended
      = [("a","1")].map mkCookieHeader) :=
  ⟨by decide, c2_cookie_styles [("a","1")] (by decide) [] [] none false none⟩

/-- C7 counterexample: for the ordered map Host, cookie, X-A with merged style
and effective cookies a=1, the merged cookie header lands at the end of the
copied headers and not at the position the explicit cookie header occupied in
the original map. -/
theorem c7_counterexample :
    (reorderOrdered [("Host","example.com"), ("cookie","x=9"), ("X-A","1")]
        none false none (some [("a","1")]) false).reordered
      = [("Host","example.com"), ("X-A","1"), ("cookie","a=1")] ∧
    ([("Host","example.com"), ("X-A","1"), ("cookie","a=1")] : List KV)
      ≠ [("Host","example.com"), ("cookie","a=1"), ("X-A","1")] := by
  constructor
  · decide
  · decide

/-- C7 amended: with merged style and a non-empty effective cookie set, the
single merged cookie header is always appended after the copied headers,
immediately before the priority header when one exists, whether or not an
explicit cookie header occurred in the original ordered map. -/
theorem c7_merged_cookie_at_end (ordered : List KV) (bb : Option (List Nat)) (hf : Bool)
    (ct : Option String) (cs : List KV) (h : cs ≠ []) :
    ∃ front pri,
      (reorderOrdered ordered bb hf ct (some cs) false).reordered
        = front ++ [("cookie", joinCookies cs)] ++ pri ∧
      (∀ p ∈ front, lowerStr p.1 ≠ "cookie") ∧
      (pri = [] ∨ ∃ kv : KV, pri = [kv] ∧ lowerStr kv.1 = "priority") := by
  have hemp : cs.isEmpty = false := by
    cases cs
    · exact absurd rfl h
    · rfl
  obtain ⟨front, pri, heq, hfr, hpr, _⟩ := reorder_merged_structure ordered bb hf ct cs hemp
  exact ⟨front, pri, heq, hfr, hpr⟩

/-- Witness for the amended C7 at the counterexample input. -/
theorem c7_merged_cookie_at_end_witness :
    ([("a","1")] : List KV) ≠ [] ∧
    ∃ front pri,
      (reorderOrdered [("Host","example.com"), ("cookie","x=9"), ("X-A","1")]
          none false none (some [("a","1")]) false).reordered
        = front ++ [("cookie", joinCookies [("a","1")])] ++ pri ∧
      (∀ p ∈ front, lowerStr p.1 ≠ "cookie") ∧
      (pri = [] ∨ ∃ kv : KV, pri = [kv] ∧ lowerStr kv.1 = "priority") :=
  ⟨by decide, c7_merged_cookie_at_end [("Host","example.com"), ("cookie","x=9"), ("X-A","1")]
      none false none [("a","1")] (by decide)⟩

/-- C8: when neither a request-level nor a client-level ordered header map and
no unordered header map exist, the header logic of RClient.request attaches
nothing at all; in particular the explicit per-request cookies are silently
dropped in both merged and split style, contrary to the claim that they are
still attached per the style rule. -/
theorem c8_cookies_dropped_without_headers :
    requestHeaders (effectiveOrderedHeaders none none) none none false none
        (some [("a","1")]) false = ([], []) ∧
    requestHeaders (effectiveOrderedHeaders none none) none none false none
        (some [("a","1")]) true = ([], []) := by
  constructor
  · rfl
  · rfl

/-! Lemmas about the cookie jar adapter. -/

theorem map_fst_overwrite (m : List KV) (k v : String) :
    (m.map (fun p => if p.1 == k then (p.1, v) else p)).map Prod.fst = m.map Prod.fst := by
  induction m with
  | nil => rfl
  | cons a t ih =>
    simp only [List.map_cons]
    rw [ih]
    congr 1
    cases ha : (a.1 == k) <;> simp [ha]

theorem imInsert_keys (m : List KV) (k v : String) :
    (imInsert m k v).map Prod.fst =
      if imContains m k then m.map Prod.fst else m.map Prod.fst ++ [k] := by
  cases hc : imContains m k
  · rw [if_neg (by simp)]
    unfold imInsert
    rw [hc, if_neg (by simp)]
    simp
  · rw [if_pos rfl]
    unfold imInsert
    rw [hc, if_pos rfl]
    exact map_fst_overwrite m k v

theorem not_mem_keys_of_not_contains {m : List KV} {k : String}
    (h : imContains m k = false) : k ∉ m.map Prod.fst := by
  intro hk
  obtain ⟨p, hp, hpk⟩ := List.mem_map.mp hk
  have hfa := List.any_eq_false.mp h p hp
  exact hfa (by simpa using hpk)

theorem mem_keys_of_contains {m : List KV} {k : String} (h : imContains m k = true) :
    k ∈ m.map Prod.fst := by
  obtain ⟨p, hp, hpk⟩ := List.any_eq_true.mp h
  exact List.mem_map.mpr ⟨p, hp, by simpa using hpk⟩

theorem imInsert_keys_nodup {m : List KV} {k v : String}
    (h : (m.map Prod.fst).Nodup) : ((imInsert m k v).map Prod.fst).Nodup := by
  rw [imInsert_keys]
  cases hc : imContains m k
  · simp only [Bool.false_eq_true, if_false]
    rw [List.nodup_append]
    refine ⟨h, List.nodup_singleton k, ?_⟩
    intro a ha hak
    rcases List.mem_singleton.mp hak with rfl
    exact not_mem_keys_of_not_contains hc ha
  · simpa using h

theorem not_mem_keys_imInsert {m : List KV} {k v n : String}
    (h : n ∉ m.map Prod.fst) (hnk : n ≠ k) : n ∉ (imInsert m k v).map Prod.fst := by
  rw [imInsert_keys]
  cases hc : imContains m k
  · simp only [Bool.false_eq_true, if_false]
    intro hmem
    rcases List.mem_append.mp hmem with hmem | hmem
    · exact h hmem
    · exact hnk (List.mem_singleton.mp hmem)
  · simpa using h

theorem mem_keys_imInsert_superset {m : List KV} {k v n : String}
    (h : n ∈ m.map Prod.fst) : n ∈ (imInsert m k v).map Prod.fst := by
  rw [imInsert_keys]
  cases hc : imContains m k
  · simp only [Bool.false_eq_true, if_false]
    exact List.mem_append.mpr (Or.inl h)
  · simpa using h

theorem self_mem_keys_imInsert (m : List KV) (k v : String) :
    k ∈ (imInsert m k v).map Prod.fst := by
  rw [imInsert_keys]
  cases hc : imContains m k
  · simp
  · simpa using mem_keys_of_contains hc

theorem getAll_fold_nodup (deleted : List String) (jar : List CookieRec) (acc : List KV)
    (h : (acc.map Prod.fst).Nodup) :
    ((jar.foldl (fun a c => if deleted.contains c.name then a else imInsert a c.name c.value)
        acc).map Prod.fst).Nodup := by
  induction jar generalizing acc with
  | nil => exact h
  | cons c t ih =>
    rw [List.foldl_cons]
    cases hd : deleted.contains c.name
    · rw [if_neg (by simp)]
      exact ih _ (imInsert_keys_nodup h)
    · rw [if_pos rfl]
      exact ih _ h

theorem getAll_fold_not_mem (deleted : List String) (jar : List CookieRec) (acc : List KV)
    (n : String) (hdel : deleted.contains n = true) (hacc : n ∉ acc.map Prod.fst) :
    n ∉ ((jar.foldl (fun a c => if deleted.contains c.name then a
        else imInsert a c.name c.value) acc).map Prod.fst) := by
  induction jar generalizing acc with
  | nil => exact hacc
  | cons c t ih =>
    rw [List.foldl_cons]
    cases hd : deleted.contains c.name
    · rw [if_neg (by simp)]
      have hne : n ≠ c.name := by
        intro he
        rw [← he] at hd
        rw [hdel] at hd
        cases hd
      exact ih _ (not_mem_keys_imInsert hacc hne)
    · rw [if_pos rfl]
      exact ih _ hacc

theorem getAll_fold_mem (deleted : List String) (jar : List CookieRec) (acc : List KV)
    (n : String) (hdel : deleted.contains n = false)
    (h : n ∈ acc.map Prod.fst ∨ ∃ c ∈ jar, c.name = n) :
    n ∈ ((jar.foldl (fun a c => if deleted.contains c.name then a
        else imInsert a c.name c.value) acc).map Prod.fst) := by
  induction jar generalizing acc with
  | nil =>
    rcases h with h | ⟨c, hc, _⟩
    · exact h
    · cases hc
  | cons c t ih =>
    rw [List.foldl_cons]
    rcases h with h | ⟨c', hc', hcn⟩
    · cases hd : deleted.contains c.name
      · rw [if_neg (by simp)]
        exact ih _ (Or.inl (mem_keys_imInsert_superset h))
      · rw [if_pos rfl]
        exact ih _ (Or.inl h)
    · rcases List.mem_cons.mp hc' with rfl | hc'
      · have hd : deleted.contains c'.name = false := by rw [hcn]; exact hdel
        rw [hd, if_neg (by simp)]
        refine ih _ (Or.inl ?_)
        rw [← hcn]
        exact self_mem_keys_imInsert acc c'.name c'.value
      · cases hd : deleted.contains c.name
        · rw [if_neg (by simp)]
          exact ih _ (Or.inr ⟨c', hc', hcn⟩)
        · rw [if_pos rfl]
          exact ih _ (Or.inr ⟨c', hc', hcn⟩)

theorem getAll_keys_nodup (st : JarState) : ((getAllCookies st).map Prod.fst).Nodup :=
  getAll_fold_nodup st.deleted st.jar [] (by simp)

theorem deleted_not_in_getAll (st : JarState) (n : String)
    (h : st.deleted.contains n = true) : n ∉ (getAllCookies st).map Prod.fst :=
  getAll_fold_not_mem st.deleted st.jar [] n h (by simp)

theorem mem_getAll_of (st : JarState) (n : String) (hdel : st.deleted.contains n = false)
    (hex : ∃ c ∈ st.jar, c.name = n) : n ∈ (getAllCookies st).map Prod.fst :=
  getAll_fold_mem st.deleted st.jar [] n hdel (Or.inr hex)

theorem delInsert_contains (l : List String) (n : String) :
    (delInsert l n).contains n = true := by
  unfold delInsert
  split
  · next h => exact h
  · exact List.elem_eq_true_of_mem (by simp)

/-- C9: get_all_cookies returns at most one entry per cookie name (the
returned map is keyed by name alone), and delete_cookie hides every record
with that name across all domains and paths from get_all_cookies and
get_cookie, because the tombstone is keyed by name alone. -/
theorem c9_name_keyed_visibility (st : JarState) (name : String) :
    ((getAllCookies st).map Prod.fst).Nodup ∧
    name ∉ (getAllCookies (deleteCookie st name)).map Prod.fst ∧
    getCookie (deleteCookie st name) name = none := by
  refine ⟨getAll_keys_nodup st, ?_, ?_⟩
  · exact deleted_not_in_getAll (deleteCookie st name) name (delInsert_contains st.deleted name)
  · have hc : (deleteCookie st name).deleted.contains name = true :=
      delInsert_contains st.deleted name
    unfold getCookie
    rw [if_pos hc]

theorem find_map_overwrite (r : CookieRec) (n : String) (hn : r.name = n)
    (jar : List CookieRec)
    (h : ∀ c ∈ jar, c.name = n → sameKey c r = true) :
    (jar.map (fun c => if sameKey c r then r else c)).find? (fun c => c.name == n)
      = if jar.any (fun c => sameKey c r) then some r else none := by
  subst hn
  induction jar with
  | nil => rfl
  | cons c t ih =>
    cases hck : sameKey c r
    · have hcn : (c.name == r.name) = false := by
        cases hcn : (c.name == r.name)
        · rfl
        · have := h c (by simp) (by simpa using hcn)
          rw [hck] at this
          cases this
      simp only [List.map_cons]
      rw [if_neg (by simp [hck])]
      rw [List.find?_cons_of_neg _ (by simp [hcn])]
      rw [ih (fun c' hc' hn' => h c' (by simp [hc']) hn')]
      have hany : ((c :: t).any fun x => sameKey x r) = (t.any fun x => sameKey x r) := by
        simp [hck]
      rw [hany]
    · simp only [List.map_cons]
      rw [if_pos hck]
      rw [List.find?_cons_of_pos _ (by simp)]
      have hany : ((c :: t).any fun x => sameKey x r) = true := by simp [hck]
      rw [hany, if_pos rfl]

theorem find_append_none {l₁ l₂ : List CookieRec} {p : CookieRec → Bool}
    (h : l₁.find? p = none) : (l₁ ++ l₂).find? p = l₂.find? p := by
  induction l₁ with
  | nil => rfl
  | cons a t ih =>
    cases hpa : p a
    · rw [List.cons_append, List.find?_cons_of_neg _ (by simp [hpa])]
      rw [List.find?_cons_of_neg _ (by simp [hpa])] at h
      exact ih h
    · rw [List.find?_cons_of_pos _ hpa] at h
      cases h

theorem jarAdd_find (jar : List CookieRec) (r : CookieRec) (n : String) (hn : r.name = n)
    (h : ∀ c ∈ jar, c.name = n → sameKey c r = true) :
    (jarAdd jar r).find? (fun c => c.name == n) = some r := by
  unfold jarAdd
  cases hany : jar.any (fun c => sameKey c r)
  · rw [if_neg (by simp)]
    have hnone : jar.find? (fun c => c.name == n) = none := by
      rw [List.find?_eq_none]
      intro c hc hpc
      have hname : c.name = n := by simpa using hpc
      have hsk := h c hc hname
      have := List.any_eq_false.mp hany c hc
      exact this hsk
    rw [find_append_none hnone]
    rw [List.find?_cons_of_pos _ (by simp [hn])]
  · rw [if_pos rfl]
    rw [find_map_overwrite r n hn jar h, hany, if_pos rfl]

theorem mem_jarAdd {jar : List CookieRec} {r c : CookieRec} (h : c ∈ jarAdd jar r) :
    c = r ∨ c ∈ jar := by
  unfold jarAdd at h
  by_cases hany : jar.any (fun x => sameKey x r) = true
  · rw [if_pos hany] at h
    obtain ⟨c0, hc0, heq⟩ := List.mem_map.mp h
    by_cases hsk : sameKey c0 r = true
    · rw [if_pos hsk] at heq
      exact Or.inl heq.symm
    · rw [if_neg hsk] at heq
      exact Or.inr (heq ▸ hc0)
  · rw [if_neg hany] at h
    rcases List.mem_append.mp h with h | h
    · exact Or.inr h
    · exact Or.inl (List.mem_singleton.mp h)

theorem self_mem_jarAdd (jar : List CookieRec) (r : CookieRec) : r ∈ jarAdd jar r := by
  unfold jarAdd
  by_cases hany : jar.any (fun x => sameKey x r) = true
  · rw [if_pos hany]
    obtain ⟨c0, hc0, hsk⟩ := List.any_eq_true.mp hany
    exact List.mem_map.mpr ⟨c0, hc0, by rw [if_pos hsk]⟩
  · rw [if_neg hany]
    exact List.mem_append.mpr (Or.inr (by simp))

theorem filter_ne_contains_false (l : List String) (n : String) :
    (l.filter (fun x => x ≠ n)).contains n = false := by
  cases hc : (l.filter (fun x => x ≠ n)).contains n
  · rfl
  · exfalso
    have hmem : n ∈ l.filter (fun x => x ≠ n) := List.mem_of_elem_eq_true hc
    have := List.of_mem_filter hmem
    simp at this

/-- C3 counterexample: starting from an empty jar, set a=old at an explicit
domain, delete a, then re-set a=new at the default scope; get_cookie scans the
jar in enumeration order and returns the older record of the other scope, not
the value just set. -/
theorem c3_counterexample :
    getCookie (setCookie (deleteCookie (setCookie ⟨[], []⟩ "a" "old"
        (some "example.com") none) "a") "a" "new" none none) "a" = some "old" ∧
    (some "old" : Option String) ≠ some "new" := by
  exact ⟨by decide, by decide⟩

/-- C3 amended: after delete_cookie(name), get_all_cookies never lists the
name and get_cookie returns none, regardless of jar contents; after a
subsequent set_cookie(name, value) the name is visible again in
get_all_cookies, and get_cookie returns Some(value) provided every record of
that name in the jar lives at the default scope (so the freshly written
record is the only one with that name); with records of the same name at
other scopes, get_cookie returns the first enumerated record instead. -/
theorem c3_delete_then_set (st : JarState) (name v : String) :
    (getCookie (deleteCookie st name) name = none ∧
      name ∉ (getAllCookies (deleteCookie st name)).map Prod.fst) ∧
    ((∀ r ∈ st.jar, r.name = name → r.domain = "0.0.0.0" ∧ r.cpath = "/") →
      getCookie (setCookie (deleteCookie st name) name v none none) name = some v ∧
      name ∈ (getAllCookies (setCookie (deleteCookie st name) name v none none)).map
        Prod.fst) := by
  constructor
  · constructor
    · have hc : (deleteCookie st name).deleted.contains name = true :=
        delInsert_contains st.deleted name
      unfold getCookie
      rw [if_pos hc]
    · exact deleted_not_in_getAll (deleteCookie st name) name
        (delInsert_contains st.deleted name)
  · intro hscope
    have hdc : (setCookie (deleteCookie st name) name v none none).deleted.contains name
        = false := filter_ne_contains_false (delInsert st.deleted name) name
    have hkey : ∀ c ∈ (deleteCookie st name).jar,
        c.name = name → sameKey c ⟨name, v, "0.0.0.0", "/"⟩ = true := by
      intro c hc hn
      rcases mem_jarAdd hc with rfl | hc
      · simp [sameKey]
      · obtain ⟨hd, hp⟩ := hscope c hc hn
        simp [sameKey, hn, hd, hp]
    have hfind : ((setCookie (deleteCookie st name) name v none none).jar.find?
        (fun c => c.name == name)) = some ⟨name, v, "0.0.0.0", "/"⟩ :=
      jarAdd_find (deleteCookie st name).jar ⟨name, v, "0.0.0.0", "/"⟩ name rfl hkey
    constructor
    · unfold getCookie
      rw [if_neg (by rw [hdc]; simp), hfind]
      rfl
    · exact mem_getAll_of _ name hdc
        ⟨⟨name, v, "0.0.0.0", "/"⟩,
          self_mem_jarAdd (deleteCookie st name).jar ⟨name, v, "0.0.0.0", "/"⟩, rfl⟩

/-- Witness for the amended C3 from the empty jar. -/
theorem c3_delete_then_set_witness :
    getCookie (setCookie (deleteCookie (⟨[], []⟩ : JarState) "a") "a" "1" none none) "a"
      = some "1" ∧
    "a" ∈ (getAllCookies (setCookie (deleteCookie (⟨[], []⟩ : JarState) "a") "a" "1"
      none none)).map Prod.fst :=
  (c3_delete_then_set ⟨[], []⟩ "a" "1").2 (by simp)

/-! Lemmas about the body encoder and multipart construction. -/

/-- C4 counterexample: with raw content bytes and a non-empty files input
supplied together, the request body is the multipart form built from the
files, not the raw bytes; the files input wins, refuting Raw over Files
precedence. -/
theorem c4_counterexample :
    requestBody true (some [104, 105]) none none [FileData.fbytes "f" "f" [1]]
        (fun _ => none) (fun _ => []) (fun _ => none) (fun _ => "") (fun _ => none)
      = some (ReqBody.multipart [Part.fileBytes "f" "f" [1] none]) ∧
    some (ReqBody.multipart [Part.fileBytes "f" "f" [1] none])
      ≠ some (ReqBody.bytes [104, 105]) := by
  exact ⟨by decide, by decide⟩

/-- C4 amended: the body precedence implemented by the encoder check order is
Files over Raw over Form over Json: any non-empty files input yields the
multipart form and every other body input is ignored; with no files, raw
content bytes are used verbatim regardless of data and json; with neither,
data is encoded; json is only consulted when content and data are absent. -/
theorem c4_files_over_raw (c : List Nat) (files : List FileData)
    (d j : Option JVal) (jv : JVal) (parse : String → Option JVal)
    (ser : JVal → List Nat) (urlenc : JVal → Option String) (jshow : JVal → String)
    (pm : String → Option String) :
    (files ≠ [] → requestBody true (some c) d j files parse ser urlenc jshow pm
      = some (ReqBody.multipart (multipartForm d files jshow pm))) ∧
    (requestBody true (some c) d j [] parse ser urlenc jshow pm
      = some (ReqBody.bytes c)) ∧
    (requestBody true none d (some jv) [] parse ser urlenc jshow pm
      = requestBody true none d none [] parse ser urlenc jshow pm ∨ d = none) ∧
    (requestBody true none none (some jv) [] parse ser urlenc jshow pm
      = some (ReqBody.bytes (ser jv))) := by
  refine ⟨?_, ?_, ?_, ?_⟩
  · intro hf
    have hne : files.isEmpty = false := by
      cases files
      · exact absurd rfl hf
      · rfl
    simp [requestBody, encodeBody, chooseBody, hne]
  · simp [requestBody, encodeBody, chooseBody]
  · rcases d with _ | fd
    · exact Or.inr rfl
    · left
      cases fd <;> simp [requestBody, encodeBody, chooseBody]
  · simp [requestBody, encodeBody, chooseBody]

/-- Witness for the amended C4 at concrete inputs. -/
theorem c4_files_over_raw_witness :
    ([FileData.fbytes "f" "f" [1]] : List FileData) ≠ [] ∧
    requestBody true (some [104, 105]) none none [FileData.fbytes "f" "f" [1]]
        (fun _ => none) (fun _ => []) (fun _ => none) (fun _ => "") (fun _ => none)
      = some (ReqBody.multipart (multipartForm none [FileData.fbytes "f" "f" [1]]
          (fun _ => "") (fun _ => none))) :=
  ⟨by decide, (c4_files_over_raw [104, 105] [FileData.fbytes "f" "f" [1]] none none
      JVal.null (fun _ => none) (fun _ => []) (fun _ => none) (fun _ => "")
      (fun _ => none)).1 (by decide)⟩

/-- C5: body encoding of the data input alone for POST, PUT or PATCH: a string
that parses as JSON is re-serialized as JSON with content-type
application/json; a string that does not parse is sent as its raw bytes with
no inferred content-type; an object with no nested object or array value is
form-urlencoded; an object with any nested object or array value is
serialized as JSON with content-type application/json. -/
theorem c5_data_encoding (parse : String → Option JVal) (ser : JVal → List Nat)
    (urlenc : JVal → Option String) (s : String) (j : JVal)
    (fs : List (String × JVal)) (e : String) :
    (parse s = some j →
      encodeBody true false none (some (JVal.str s)) none parse ser urlenc
        = some (some (ser j), some "application/json")) ∧
    (parse s = none →
      encodeBody true false none (some (JVal.str s)) none parse ser urlenc
        = some (some (strBytes s), none)) ∧
    (fs.any (fun p => isObjOrArr p.2) = false → urlenc (JVal.obj fs) = some e →
      encodeBody true false none (some (JVal.obj fs)) none parse ser urlenc
        = some (some (strBytes e), some "application/x-www-form-urlencoded")) ∧
    (fs.any (fun p => isObjOrArr p.2) = true →
      encodeBody true false none (some (JVal.obj fs)) none parse ser urlenc
        = some (some (ser (JVal.obj fs)), some "application/json")) := by
  refine ⟨?_, ?_, ?_, ?_⟩
  · intro hp
    simp [encodeBody, hp]
  · intro hp
    simp [encodeBody, hp]
  · intro hflat hu
    simp [encodeBody, isNested, hflat, hu]
  · intro hnested
    simp [encodeBody, isNested, hnested]

/-- Witness for C5 at concrete strings, objects and serializers. -/
theorem c5_data_encoding_witness :
    ((fun (_ : String) => some JVal.null) "x" = some JVal.null ∧
      encodeBody true false none (some (JVal.str "x")) none (fun _ => some JVal.null)
          (fun _ => [48]) (fun _ => none)
        = some (some ((fun (_ : JVal) => [48]) JVal.null), some "application/json")) ∧
    ((fun (_ : String) => (none : Option JVal)) "x" = none ∧
      encodeBody true false none (some (JVal.str "x")) none (fun _ => none)
          (fun _ => [48]) (fun _ => none)
        = some (some (strBytes "x"), none)) ∧
    (([("a", JVal.str "1")] : List (String × JVal)).any (fun p => isObjOrArr p.2) = false ∧
      encodeBody true false none (some (JVal.obj [("a", JVal.str "1")])) none
          (fun _ => none) (fun _ => [48]) (fun _ => some "a=1")
        = some (some (strBytes "a=1"), some "application/x-www-form-urlencoded")) ∧
    (([("a", JVal.obj [])] : List (String × JVal)).any (fun p => isObjOrArr p.2) = true ∧
      encodeBody true false none (some (JVal.obj [("a", JVal.obj [])])) none
          (fun _ => none) (fun _ => [48]) (fun _ => none)
        = some (some ((fun (_ : JVal) => [48]) (JVal.obj [("a", JVal.obj [])])),
            some "application/json")) :=
  ⟨⟨rfl, (c5_data_encoding (fun _ => some JVal.null) (fun _ => [48]) (fun _ => none)
      "x" JVal.null [] "").1 rfl⟩,
   ⟨rfl, (c5_data_encoding (fun _ => none) (fun _ => [48]) (fun _ => none)
      "x" JVal.null [] "").2.1 rfl⟩,
   ⟨rfl, (c5_data_encoding (fun _ => none) (fun _ => [48]) (fun _ => some "a=1")
      "x" JVal.null [("a", JVal.str "1")] "a=1").2.2.1 rfl rfl⟩,
   ⟨rfl, (c5_data_encoding (fun _ => none) (fun _ => [48]) (fun _ => none)
      "x" JVal.null [("a", JVal.obj [])] "").2.2.2 rfl⟩⟩

/-- C10: with a non-empty files input and a data value that is not a JSON
object, the multipart form consists of the file parts only and the data value
is silently dropped from the request body; only an object-shaped data value
contributes text fields. -/
theorem c10_nonobject_data_dropped (d : JVal) (files : List FileData)
    (content : Option (List Nat)) (jv : Option JVal) (parse : String → Option JVal)
    (ser : JVal → List Nat) (urlenc : JVal → Option String) (jshow : JVal → String)
    (pm : String → Option String) (hd : ∀ fs, d ≠ JVal.obj fs) (hf : files ≠ []) :
    multipartForm (some d) files jshow pm = files.map (filePart pm) ∧
    requestBody true content (some d) jv files parse ser urlenc jshow pm
      = some (ReqBody.multipart (files.map (filePart pm))) ∧
    (∀ fields, multipartForm (some (JVal.obj fields)) files jshow pm
      = fields.map (fun p => Part.text p.1 (jvalFieldString jshow p.2))
        ++ files.map (filePart pm)) := by
  have htext : formTextFields (some d) jshow = [] := by
    cases d with
    | obj fields => exact absurd rfl (hd fields)
    | null => rfl
    | boolean b => rfl
    | num n => rfl
    | str s => rfl
    | arr items => rfl
  have hform : multipartForm (some d) files jshow pm = files.map (filePart pm) := by
    unfold multipartForm
    rw [htext]
    rfl
  have hne : files.isEmpty = false := by
    cases files
    · exact absurd rfl hf
    · rfl
  refine ⟨hform, ?_, fun fields => rfl⟩
  cases content with
  | none => simp [requestBody, encodeBody, chooseBody, hne, hform]
  | some c => simp [requestBody, encodeBody, chooseBody, hne, hform]

/-- Witness for C10 with string-shaped data and one file. -/
theorem c10_nonobject_data_dropped_witness :
    multipartForm (some (JVal.str "x")) [FileData.fbytes "f" "n" [1]] (fun _ => "")
        (fun _ => none)
      = [FileData.fbytes "f" "n" [1]].map (filePart (fun _ => none)) ∧
    requestBody true none (some (JVal.str "x")) none [FileData.fbytes "f" "n" [1]]
        (fun _ => none) (fun _ => []) (fun _ => none) (fun _ => "") (fun _ => none)
      = some (ReqBody.multipart ([FileData.fbytes "f" "n" [1]].map
          (filePart (fun _ => none)))) :=
  ⟨(c10_nonobject_data_dropped (JVal.str "x") [FileData.fbytes "f" "n" [1]] none none
      (fun _ => none) (fun _ => []) (fun _ => none) (fun _ => "") (fun _ => none)
      (fun _ h => JVal.noConfusion h) (by decide)).1,
   (c10_nonobject_data_dropped (JVal.str "x") [FileData.fbytes "f" "n" [1]] none none
      (fun _ => none) (fun _ => []) (fun _ => none) (fun _ => "") (fun _ => none)
      (fun _ h => JVal.noConfusion h) (by decide)).2.1⟩

/-! Lemmas about client rebuild atomicity. -/

theorem applyMutation_fail {v : Validators} {env : Option String} {st : RState}
    {c : CConfig} (h : rebuildClient v env c = none) :
    (applyMutation v env st c).client = st.client := by
  unfold applyMutation
  rw [h]

theorem applyMutation_ok {v : Validators} {env : Option String} {st : RState}
    {c hd : CConfig} (h : rebuildClient v env c = some hd) :
    (applyMutation v env st c).client = hd := by
  unfold applyMutation
  rw [h]

/-- C6: every configuration mutation that triggers a rebuild (headers, ordered
headers, proxy, impersonation target, impersonation OS) is atomic in the
handle: when the rebuild of the mutated configuration fails, the previously
built client handle stays in place for subsequent requests; the new handle is
installed exactly when the whole rebuild succeeds. -/
theorem c6_rebuild_atomic (v : Validators) (env : Option String) (st : RState)
    (p imp os : String) (hs oh : Option (List KV)) :
    ((rebuildClient v env { st.cfg with proxy := some p } = none →
        (setProxy v env st p).client = st.client) ∧
      (∀ hd, rebuildClient v env { st.cfg with proxy := some p } = some hd →
        (setProxy v env st p).client = hd)) ∧
    ((rebuildClient v env { st.cfg with headers := hs } = none →
        (setHeaders v env st hs).client = st.client) ∧
      (∀ hd, rebuildClient v env { st.cfg with headers := hs } = some hd →
        (setHeaders v env st hs).client = hd)) ∧
    ((rebuildClient v env { st.cfg with orderedHeaders := oh } = none →
        (setOrderedHeaders v env st oh).client = st.client) ∧
      (∀ hd, rebuildClient v env { st.cfg with orderedHeaders := oh } = some hd →
        (setOrderedHeaders v env st oh).client = hd)) ∧
    ((rebuildClient v env { st.cfg with impersonate := some imp } = none →
        (setImpersonate v env st imp).client = st.client) ∧
      (∀ hd, rebuildClient v env { st.cfg with impersonate := some imp } = some hd →
        (setImpersonate v env st imp).client = hd)) ∧
    ((rebuildClient v env { st.cfg with impersonateOs := some os } = none →
        (setImpersonateOs v env st os).client = st.client) ∧
      (∀ hd, rebuildClient v env { st.cfg with impersonateOs := some os } = some hd →
        (setImpersonateOs v env st os).client = hd)) :=
  ⟨⟨fun h => applyMutation_fail h, fun _ h => applyMutation_ok h⟩,
   ⟨fun h => applyMutation_fail h, fun _ h => applyMutation_ok h⟩,
   ⟨fun h => applyMutation_fail h, fun _ h => applyMutation_ok h⟩,
   ⟨fun h => applyMutation_fail h, fun _ h => applyMutation_ok h⟩,
   ⟨fun h => applyMutation_fail h, fun _ h => applyMutation_ok h⟩⟩

/-- Witness for C6: with a rejecting impersonation validator every setter
keeps the old handle; with an accepting validator the proxy setter installs
the new one. -/
theorem c6_rebuild_atomic_witness :
    (rebuildClient vRejectEmu none { stSample.cfg with proxy := some "p" } = none ∧
      (setProxy vRejectEmu none stSample "p").client = stSample.client) ∧
    (rebuildClient vRejectEmu none { stSample.cfg with headers := some [] } = none ∧
      (setHeaders vRejectEmu none stSample (some [])).client = stSample.client) ∧
    (rebuildClient vRejectEmu none { stSample.cfg with orderedHeaders := some [] } = none ∧
      (setOrderedHeaders vRejectEmu none stSample (some [])).client = stSample.client) ∧
    (rebuildClient vRejectEmu none { stSample.cfg with impersonate := some "zz" } = none ∧
      (setImpersonate vRejectEmu none stSample "zz").client = stSample.client) ∧
    (rebuildClient vRejectEmu none { stSample.cfg with impersonateOs := some "ios" } = none ∧
      (setImpersonateOs vRejectEmu none stSample "ios").client = stSample.client) ∧
    (rebuildClient vAccept none { stSample.cfg with proxy := some "p" }
        = some { stSample.cfg with proxy := some "p" } ∧
      (setProxy vAccept none stSample "p").client = { stSample.cfg with proxy := some "p" }) :=
  ⟨⟨by decide, (c6_rebuild_atomic vRejectEmu none stSample "p" "zz" "ios" (some [])
      (some [])).1.1 (by decide)⟩,
   ⟨by decide, (c6_rebuild_atomic vRejectEmu none stSample "p" "zz" "ios" (some [])
      (some [])).2.1.1 (by decide)⟩,
   ⟨by decide, (c6_rebuild_atomic vRejectEmu none stSample "p" "zz" "ios" (some [])
      (some [])).2.2.1.1 (by decide)⟩,
   ⟨by decide, (c6_rebuild_atomic vRejectEmu none stSample "p" "zz" "ios" (some [])
      (some [])).2.2.2.1.1 (by decide)⟩,
   ⟨by decide, (c6_rebuild_atomic vRejectEmu none stSample "p" "zz" "ios" (some [])
      (some [])).2.2.2.2.1 (by decide)⟩,
   ⟨by decide, (c6_rebuild_atomic vAccept none stSample "p" "zz" "ios" (some [])
      (some [])).1.2 { stSample.cfg with proxy := some "p" } (by decide)⟩⟩

end NeverPrimp
